import Mathlib

set_option maxHeartbeats 1000000

/-
  Shallow embedding of `src/worker.rs` from `bevy_easy_compute`:
  the `AppComputeWorker` state machine that records compute passes and
  buffer copies into a command encoder, submits them once per cycle,
  and issues asynchronous map requests on staging buffers.

  Modelling conventions:
  * `HashMap<String, _>` registries become association lists
    (`List (String × _)`); lookups use `List.lookup`.
  * GPU handles become plain data: a `Buffer` is an identity, a size and
    the bytes the host can currently observe in it.
  * The command encoder is `Option (List EncCmd)` (`None` after `take()`).
  * Externally observable side effects (queue submissions, asynchronous
    `map_async` requests, `queue.write_buffer` uploads) are returned as an
    `Event` list.
  * Rust `Result` becomes `Except Error`; a Rust panic (`unwrap` failure,
    out-of-range indexing, `get_many_mut` on overlapping keys) becomes
    `Option.none` at the outermost level.
  * The blocking `device.poll(Wait)` is a per-tick boolean parameter
    saying whether the device reported completion.
-/

namespace EasyCompute

/-- Decidable equality on `Except`, needed to evaluate the model's
`Result`-valued operations on concrete inputs. -/
instance {ε α : Type} [DecidableEq ε] [DecidableEq α] : DecidableEq (Except ε α) := fun x y =>
  match x, y with
  | Except.error a, Except.error b =>
    if h : a = b then isTrue (by rw [h])
    else isFalse (fun hc => h (by injection hc))
  | Except.error _, Except.ok _ => isFalse (fun hc => Except.noConfusion hc)
  | Except.ok _, Except.error _ => isFalse (fun hc => Except.noConfusion hc)
  | Except.ok a, Except.ok b =>
    if h : a = b then isTrue (by rw [h])
    else isFalse (fun hc => h (by injection hc))

/-- Run mode of a worker: `Continuous` or `OneShot` with its requested flag. -/
inductive RunMode
  | Continuous
  | OneShot (requested : Bool)
deriving DecidableEq

/-- The four worker states of `WorkerState` in the source. -/
inductive WorkerState
  | Created
  | Available
  | Working
  | FinishedWorking
deriving DecidableEq

/-- A device buffer: identity, descriptor size, and host-observable bytes. -/
structure Buffer where
  id : Nat
  size : Nat
  data : List Nat
deriving DecidableEq

/-- One compute pass step: workgroup counts, bound variable names in binding
order, and the shader's identity (the `Uuid` is modelled as a `Nat`). -/
structure ComputePass where
  workgroups : Nat × Nat × Nat
  vars : List String
  shader_uuid : Nat
deriving DecidableEq

/-- A step of the worker's step list: a compute pass or a buffer swap. -/
inductive Step
  | ComputePass (cp : ComputePass)
  | Swap (a b : String)
deriving DecidableEq

/-- The staging buffer pair of one named resource (name kept from the source,
including its spelling): a read buffer and a write buffer, each with its
mapped flag. -/
structure StaggingBuffers where
  read : Buffer
  read_mapped : Bool
  write : Buffer
  write_mapped : Bool
deriving DecidableEq

/-- The error taxonomy of `error.rs` as used by `worker.rs`. -/
inductive Error
  | BufferNotFound (name : String)
  | StagingBufferNotFound (name : String)
  | InvalidStep (s : Step)
  | PipelinesEmpty
  | PipelineNotReady
  | EncoderIsNone
deriving DecidableEq

/-- A command recorded into the command encoder: a buffer-to-buffer copy
(source id, destination id, byte count) or a compute pass (pipeline id,
bound buffer ids in binding order, workgroup counts). -/
inductive EncCmd
  | copy (src dst sz : Nat)
  | pass (pipeline : Nat) (entries : List Nat) (workgroups : Nat × Nat × Nat)
deriving DecidableEq

/-- Mode of an asynchronous `map_async` request. -/
inductive MapMode
  | read
  | write
deriving DecidableEq

/-- Externally observable side effects of the worker. -/
inductive Event
  | submit (cmds : List EncCmd)
  | mapAsync (bufId : Nat) (mode : MapMode)
  | queueWriteBuffer (bufId : Nat) (offset : Nat) (bytes : List Nat)
deriving DecidableEq

/-- The `AppComputeWorker` state (render device/queue handles and the
phantom type parameter carry no state and are omitted). -/
structure Worker where
  state : WorkerState
  pipelines : List (Nat × Option Nat)
  buffers : List (String × Buffer)
  staging_buffers : List (String × StaggingBuffers)
  steps : List Step
  command_encoder : Option (List EncCmd)
  write_requested : Bool
  run_mode : RunMode
deriving DecidableEq

/-- Resolution of the bound variable names of a compute pass to buffer ids,
in order; the first unknown name yields `BufferNotFound` (the entry-building
loop of `dispatch`). -/
def collectEntries (buffers : List (String × Buffer)) : List String → Except Error (List Nat)
  | [] => Except.ok []
  | v :: rest =>
    match buffers.lookup v with
    | none => Except.error (Error.BufferNotFound v)
    | some b =>
      match collectEntries buffers rest with
      | Except.error e => Except.error e
      | Except.ok ids => Except.ok (b.id :: ids)

/-- The `dispatch` method: requires the step at `index` to be a
`ComputePass`, resolves its buffers and pipeline, and records one compute
pass into the encoder. Error returns leave the worker unchanged; `none`
models the panic of out-of-range indexing. -/
def dispatch (w : Worker) (i : Nat) : Option (Worker × Except Error Unit) :=
  match w.steps[i]? with
  | none => none
  | some (Step.Swap a b) => some (w, Except.error (Error.InvalidStep (Step.Swap a b)))
  | some (Step.ComputePass cp) =>
    match collectEntries w.buffers cp.vars with
    | Except.error e => some (w, Except.error e)
    | Except.ok entries =>
      match w.pipelines.lookup cp.shader_uuid with
      | none => some (w, Except.error Error.PipelinesEmpty)
      | some none => some (w, Except.error Error.PipelineNotReady)
      | some (some pl) =>
        match w.command_encoder with
        | none => some (w, Except.error Error.EncoderIsNone)
        | some cmds =>
          some ({ w with
            command_encoder := some (cmds ++ [EncCmd.pass pl entries cp.workgroups]) },
            Except.ok ())

/-- Exchange of the `Buffer` values stored under keys `a` and `b`
(`std::mem::swap` through `get_many_mut`); key set and order unchanged. -/
def swapVals (buffers : List (String × Buffer)) (a b : String) : List (String × Buffer) :=
  match buffers.lookup a, buffers.lookup b with
  | some ba, some bb =>
    buffers.map (fun p => if p.1 = a then (p.1, bb) else if p.1 = b then (p.1, ba) else p)
  | _, _ => buffers

/-- The `swap` method: requires the step at `index` to be a `Swap`, checks
both names, then exchanges the two buffers. `none` models the panics:
out-of-range indexing, or `get_many_mut(...).unwrap()` on overlapping keys. -/
def swap (w : Worker) (i : Nat) : Option (Worker × Except Error Unit) :=
  match w.steps[i]? with
  | none => none
  | some (Step.ComputePass cp) => some (w, Except.error (Error.InvalidStep (Step.ComputePass cp)))
  | some (Step.Swap a b) =>
    if (w.buffers.lookup a).isNone then some (w, Except.error (Error.BufferNotFound a))
    else if (w.buffers.lookup b).isNone then some (w, Except.error (Error.BufferNotFound b))
    else if a = b then none
    else some ({ w with buffers := swapVals w.buffers a b }, Except.ok ())

/-- Loop body of `write_staging_buffers`: for every staging pair, record a
copy of its write buffer into the corresponding device buffer (of
`buffer.size()` bytes). Errors abort the loop, keeping mutations so far. -/
def writeStagingGo : Worker → List (String × StaggingBuffers) → Worker × Except Error Unit
  | w, [] => (w, Except.ok ())
  | w, (name, sb) :: rest =>
    match w.command_encoder with
    | none => (w, Except.error Error.EncoderIsNone)
    | some cmds =>
      match w.buffers.lookup name with
      | none => (w, Except.error (Error.BufferNotFound name))
      | some buf =>
        writeStagingGo
          { w with command_encoder := some (cmds ++ [EncCmd.copy sb.write.id buf.id buf.size]) }
          rest

/-- The `write_staging_buffers` method. -/
def write_staging_buffers (w : Worker) : Worker × Except Error Unit :=
  writeStagingGo w w.staging_buffers

/-- Loop body of `read_staging_buffers`: for every staging pair, record a
copy of the corresponding device buffer into its read buffer (of
`staging_buffer.read.size()` bytes). -/
def readStagingGo : Worker → List (String × StaggingBuffers) → Worker × Except Error Unit
  | w, [] => (w, Except.ok ())
  | w, (name, sb) :: rest =>
    match w.command_encoder with
    | none => (w, Except.error Error.EncoderIsNone)
    | some cmds =>
      match w.buffers.lookup name with
      | none => (w, Except.error (Error.BufferNotFound name))
      | some buf =>
        readStagingGo
          { w with command_encoder := some (cmds ++ [EncCmd.copy buf.id sb.read.id sb.read.size]) }
          rest

/-- The `read_staging_buffers` method. -/
def read_staging_buffers (w : Worker) : Worker × Except Error Unit :=
  readStagingGo w w.staging_buffers

/-- Loop body of `map_staging_buffers`: for every staging pair, issue a
read-mode map request and set `read_mapped`; only when `write_requested`
held at call time, also issue a write-mode map request and set
`write_mapped`. -/
def mapStagingGo (wr : Bool) : List (String × StaggingBuffers) → List (String × StaggingBuffers) × List Event
  | [] => ([], [])
  | (name, sb) :: rest =>
    let r := mapStagingGo wr rest
    if wr then
      ((name, { sb with read_mapped := true, write_mapped := true }) :: r.1,
        Event.mapAsync sb.read.id MapMode.read :: Event.mapAsync sb.write.id MapMode.write :: r.2)
    else
      ((name, { sb with read_mapped := true }) :: r.1,
        Event.mapAsync sb.read.id MapMode.read :: r.2)

/-- The `map_staging_buffers` method. -/
def map_staging_buffers (w : Worker) : Worker × List Event :=
  let r := mapStagingGo w.write_requested w.staging_buffers
  ({ w with staging_buffers := r.1 }, r.2)

/-- Chunking of a byte list into consecutive groups of `n` (fuelled so the
definition is structural; the fuel `l.length` suffices because every chunk
consumes at least the head element). -/
def chunksOfAux : Nat → Nat → List Nat → List (List Nat)
  | 0, _, _ => []
  | _, _, [] => []
  | fuel + 1, n, x :: xs => (x :: xs.take (n - 1)) :: chunksOfAux fuel n (xs.drop (n - 1))

/-- Chunks of `n` consecutive bytes of `l`. -/
def chunksOf (n : Nat) (l : List Nat) : List (List Nat) := chunksOfAux l.length n l

/-- The `bytemuck::cast_slice` reinterpretation of mapped bytes as elements
of byte width `elemSize`; `none` models its panic when the byte length is
not a whole number of elements. -/
def cast_slice (elemSize : Nat) (bytes : List Nat) : Option (List (List Nat)) :=
  if elemSize ≠ 0 ∧ bytes.length % elemSize = 0 then some (chunksOf elemSize bytes)
  else none

/-- The `read_raw` method: the raw bytes of the target's read staging
buffer, or `StagingBufferNotFound`. -/
def read_raw (w : Worker) (target : String) : Except Error (List Nat) :=
  match w.staging_buffers.lookup target with
  | none => Except.error (Error.StagingBufferNotFound target)
  | some sb => Except.ok sb.read.data

/-- The `read` method: the read staging buffer's mapped bytes reinterpreted
as a vector of elements of byte width `elemSize`. `none` models the
`cast_slice` panic. -/
def read (w : Worker) (elemSize : Nat) (target : String) : Option (Except Error (List (List Nat))) :=
  match w.staging_buffers.lookup target with
  | none => some (Except.error (Error.StagingBufferNotFound target))
  | some sb =>
    match cast_slice elemSize sb.read.data with
    | none => none
    | some l => some (Except.ok l)

/-- The `read_one` method: element `[0]` of the reinterpreted vector;
`none` also models the out-of-range panic of indexing an empty vector. -/
def read_one (w : Worker) (elemSize : Nat) (target : String) : Option (Except Error (List Nat)) :=
  match w.staging_buffers.lookup target with
  | none => some (Except.error (Error.StagingBufferNotFound target))
  | some sb =>
    match cast_slice elemSize sb.read.data with
    | none => none
    | some [] => none
    | some (x :: _) => some (Except.ok x)

/-- The `write` method: look up the target's staging pair, enqueue the
serialized bytes to its write buffer on the device queue, set
`write_requested`. On `StagingBufferNotFound` the worker is unchanged. -/
def write (w : Worker) (target : String) (bytes : List Nat) :
    Worker × List Event × Except Error Unit :=
  match w.staging_buffers.lookup target with
  | none => (w, [], Except.error (Error.StagingBufferNotFound target))
  | some sb =>
    ({ w with write_requested := true },
      [Event.queueWriteBuffer sb.write.id 0 bytes], Except.ok ())

/-- The `submit` method: take the encoder (panic `none` when it is absent),
submit its commands to the queue, enter the `Working` state. -/
def submit (w : Worker) : Option (Worker × List Event) :=
  match w.command_encoder with
  | none => none
  | some cmds =>
    some ({ w with command_encoder := none, state := WorkerState.Working },
      [Event.submit cmds])

/-- The `ready` method: true exactly in state `FinishedWorking`. -/
def ready (w : Worker) : Bool := w.state == WorkerState.FinishedWorking

/-- The `execute` method: a no-op for `Continuous`; for `OneShot` it sets
the requested flag. -/
def execute (w : Worker) : Worker :=
  match w.run_mode with
  | RunMode.Continuous => w
  | RunMode.OneShot _ => { w with run_mode := RunMode.OneShot true }

/-- The `ready_to_execute` predicate: not `Working`, and not
`OneShot(false)`. -/
def ready_to_execute (w : Worker) : Bool :=
  (w.state != WorkerState.Working) && (w.run_mode != RunMode.OneShot false)

/-- One iteration of the step loop of `run`: `dispatch` on a `ComputePass`
index, `swap` on a `Swap` index (the error is discarded by `.ok()` at the
call site; the returned worker carries any mutations made before the
error, of which there are none on the error paths). -/
def stepEval (w : Worker) (i : Nat) : Option (Worker × Except Error Unit) :=
  match w.steps[i]? with
  | none => none
  | some (Step.ComputePass _) => dispatch w i
  | some (Step.Swap _ _) => swap w i

/-- The step loop of `run`, from index `i` for `k` more iterations;
per-step errors are discarded, panics (`none`) propagate. -/
def runStepsGo : Worker → Nat → Nat → Option Worker
  | w, _, 0 => some w
  | w, i, k + 1 =>
    match stepEval w i with
    | none => none
    | some (w', _) => runStepsGo w' (i + 1) k

/-- The run-mode update performed when the poll branch observes
completion: `OneShot` resets its requested flag, `Continuous` is kept. -/
def finishMode : RunMode → RunMode
  | RunMode.Continuous => RunMode.Continuous
  | RunMode.OneShot _ => RunMode.OneShot false

/-- Lines 385–388 of `run`: when a write was requested, record the
write-staging copies (`.unwrap()`: an error panics, modelled `none`) and
clear the pending-write flag. -/
def uploadStage (w : Worker) : Option Worker :=
  if w.write_requested then
    match write_staging_buffers w with
    | (_, Except.error _) => none
    | (w1, Except.ok _) => some { w1 with write_requested := false }
  else some w

/-- Line 399 of `run`: record the read-staging copies
(`.unwrap()`: an error panics, modelled `none`). -/
def stageOutputs (w : Worker) : Option Worker :=
  match read_staging_buffers w with
  | (_, Except.error _) => none
  | (w3, Except.ok _) => some w3

/-- The body of the `ready_to_execute` branch of `run`: conditional upload
of pending writes (then clearing the flag), the step loop, staging of
outputs, submission, and the map requests. `none` models the `unwrap`
panics on the staging-copy results and on submission. -/
def execBranch (w : Worker) : Option (Worker × List Event) :=
  match uploadStage w with
  | none => none
  | some w1 =>
    match runStepsGo w1 0 w1.steps.length with
    | none => none
    | some w2 =>
      match stageOutputs w2 with
      | none => none
      | some w3 =>
        match submit w3 with
        | none => none
        | some (w4, evs4) =>
          match map_staging_buffers w4 with
          | (w5, evs5) => some (w5, evs4 ++ evs5)

/-- The `run` system, one cycle: publish readiness, conditionally execute,
then (unless the mode is `OneShot(false)`) block on the device poll and on
completion enter `FinishedWorking`, recreate the encoder and reset a
`OneShot` mode's flag. `pollOk` is the device poll's completion report. -/
def runTick (w : Worker) (pollOk : Bool) : Option (Worker × List Event) :=
  let w0 := if ready w then { w with state := WorkerState.Available } else w
  match (if ready_to_execute w0 then execBranch w0 else some (w0, [])) with
  | none => none
  | some (w1, evs) =>
    if w1.run_mode ≠ RunMode.OneShot false ∧ pollOk = true then
      some ({ w1 with
        state := WorkerState.FinishedWorking,
        command_encoder := some [],
        run_mode := finishMode w1.run_mode }, evs)
    else some (w1, evs)

/-- Iterated cycles of `run`, one poll outcome per tick, with the emitted
events concatenated. -/
def runTicks : Worker → List Bool → Option (Worker × List Event)
  | w, [] => some (w, [])
  | w, p :: ps =>
    match runTick w p with
    | none => none
    | some (w1, evs1) =>
      match runTicks w1 ps with
      | none => none
      | some (w2, evs2) => some (w2, evs1 ++ evs2)

/-- Absence of a `Swap` step with two equal names (such a step would panic
in `get_many_mut(...).unwrap()` when both names are registered). -/
def stepOk : Step → Bool
  | Step.Swap a b => a != b
  | Step.ComputePass _ => true

/-- Every staging pair's name is registered as a device buffer. -/
def stagingCovered (w : Worker) : Prop :=
  ∀ p ∈ w.staging_buffers, (w.buffers.lookup p.1).isSome = true

/-- Every step of the worker satisfies `stepOk`. -/
def stepsOk (w : Worker) : Prop := ∀ s ∈ w.steps, stepOk s = true

/-- Static well-formedness preserved across cycles (independent of the
encoder). -/
def WFstatic (w : Worker) : Prop := stagingCovered w ∧ stepsOk w

/-- Well-formedness of a worker outside the `Working` state: static
well-formedness plus a present command encoder. -/
def WFcore (w : Worker) : Prop := WFstatic w ∧ w.command_encoder.isSome = true

instance (w : Worker) : Decidable (stagingCovered w) :=
  inferInstanceAs (Decidable (∀ p ∈ w.staging_buffers, (w.buffers.lookup p.1).isSome = true))

instance (w : Worker) : Decidable (stepsOk w) :=
  inferInstanceAs (Decidable (∀ s ∈ w.steps, stepOk s = true))

instance (w : Worker) : Decidable (WFstatic w) :=
  inferInstanceAs (Decidable (stagingCovered w ∧ stepsOk w))

instance (w : Worker) : Decidable (WFcore w) :=
  inferInstanceAs (Decidable (WFstatic w ∧ w.command_encoder.isSome = true))

/-- Number of queue submissions in an event list. -/
def submitCount : List Event → Nat
  | [] => 0
  | Event.submit _ :: rest => submitCount rest + 1
  | _ :: rest => submitCount rest

/-- Number of write-mode map requests in an event list. -/
def writeMapCount : List Event → Nat
  | [] => 0
  | Event.mapAsync _ MapMode.write :: rest => writeMapCount rest + 1
  | _ :: rest => writeMapCount rest

/-- The read-mode map request events for a staging list, in order. -/
def readMapEvents (sbs : List (String × StaggingBuffers)) : List Event :=
  sbs.map (fun p => Event.mapAsync p.2.read.id MapMode.read)

/-- A staging list with every `read_mapped` flag set (and every
`write_mapped` flag untouched). -/
def setReadMapped (sbs : List (String × StaggingBuffers)) : List (String × StaggingBuffers) :=
  sbs.map (fun p => (p.1, { p.2 with read_mapped := true }))

/-- The copy commands recorded by `write_staging_buffers` for a staging
list over a given registry. -/
def writeCmds (buffers : List (String × Buffer)) : List (String × StaggingBuffers) → List EncCmd
  | [] => []
  | (name, sb) :: rest =>
    (match buffers.lookup name with
      | some buf => [EncCmd.copy sb.write.id buf.id buf.size]
      | none => []) ++ writeCmds buffers rest

/-- The copy commands recorded by `read_staging_buffers` for a staging
list over a given registry. -/
def readCmds (buffers : List (String × Buffer)) : List (String × StaggingBuffers) → List EncCmd
  | [] => []
  | (name, sb) :: rest =>
    (match buffers.lookup name with
      | some buf => [EncCmd.copy buf.id sb.read.id sb.read.size]
      | none => []) ++ readCmds buffers rest

/-- Relation between a worker and its evolution through the step loop:
steps, staging pairs, state, run mode, pending-write flag and pipelines
are untouched, the buffer registry keeps its key sequence, and the
encoder only accumulates commands. -/
def sameShape (w w' : Worker) : Prop :=
  w'.steps = w.steps ∧ w'.staging_buffers = w.staging_buffers ∧ w'.state = w.state ∧
  w'.run_mode = w.run_mode ∧ w'.write_requested = w.write_requested ∧
  w'.pipelines = w.pipelines ∧ w'.buffers.map Prod.fst = w.buffers.map Prod.fst ∧
  (∀ cmds, w.command_encoder = some cmds → ∃ ext, w'.command_encoder = some (cmds ++ ext))

lemma sameShape_refl (w : Worker) : sameShape w w := by
  refine ⟨rfl, rfl, rfl, rfl, rfl, rfl, rfl, fun cmds h => ⟨[], by simp [h]⟩⟩

lemma sameShape_trans {w1 w2 w3 : Worker} (h12 : sameShape w1 w2) (h23 : sameShape w2 w3) :
    sameShape w1 w3 := by
  obtain ⟨a1, b1, c1, d1, e1, f1, g1, h1⟩ := h12
  obtain ⟨a2, b2, c2, d2, e2, f2, g2, h2⟩ := h23
  refine ⟨a2.trans a1, b2.trans b1, c2.trans c1, d2.trans d1, e2.trans e1,
    f2.trans f1, g2.trans g1, fun cmds hc => ?_⟩
  obtain ⟨e1x, he1⟩ := h1 cmds hc
  obtain ⟨e2x, he2⟩ := h2 _ he1
  exact ⟨e1x ++ e2x, by simp [he2]⟩

lemma submitCount_append (a b : List Event) :
    submitCount (a ++ b) = submitCount a + submitCount b := by
  induction a with
  | nil => simp [submitCount]
  | cons x xs ih =>
    cases x <;> simp [submitCount, ih]
    omega

lemma submitCount_readMapEvents (l : List (String × StaggingBuffers)) :
    submitCount (readMapEvents l) = 0 := by
  induction l with
  | nil => rfl
  | cons x xs ih => simpa [readMapEvents, submitCount] using ih

lemma writeMapCount_readMapEvents (l : List (String × StaggingBuffers)) :
    writeMapCount (readMapEvents l) = 0 := by
  induction l with
  | nil => rfl
  | cons x xs ih => simpa [readMapEvents, writeMapCount] using ih

lemma lookup_isSome_congr {α β γ : Type} [BEq α] :
    ∀ (bs : List (α × β)) (cs : List (α × γ)), bs.map Prod.fst = cs.map Prod.fst →
    ∀ k, (bs.lookup k).isSome = (cs.lookup k).isSome := by
  intro bs
  induction bs with
  | nil => intro cs h k; cases cs with
    | nil => rfl
    | cons c ct => simp at h
  | cons b bt ih =>
    intro cs h k
    cases cs with
    | nil => simp at h
    | cons c ct =>
      simp only [List.map_cons, List.cons.injEq] at h
      obtain ⟨h1, h2⟩ := h
      simp only [List.lookup, h1]
      cases hbk : k == c.1 with
      | true => simp [hbk]
      | false => simpa [hbk] using ih ct h2 k

lemma swapVals_keys (bs : List (String × Buffer)) (a b : String) :
    (swapVals bs a b).map Prod.fst = bs.map Prod.fst := by
  unfold swapVals
  cases bs.lookup a with
  | none => rfl
  | some ba =>
    cases bs.lookup b with
    | none => rfl
    | some bb =>
      simp only [List.map_map]
      apply List.map_congr_left
      intro p _
      by_cases h1 : p.1 = a
      · simp [h1, apply_ite Prod.fst]
      · by_cases h2 : p.1 = b <;> simp [h1, h2, apply_ite Prod.fst]

lemma collectEntries_error (bs : List (String × Buffer)) :
    ∀ (vs : List String) (e : Error), collectEntries bs vs = Except.error e →
    ∃ n, e = Error.BufferNotFound n := by
  intro vs
  induction vs with
  | nil => intro e h; simp [collectEntries] at h
  | cons v rest ih =>
    intro e h
    simp only [collectEntries] at h
    cases hv : bs.lookup v with
    | none => simp [hv] at h; exact ⟨v, h.symm⟩
    | some b =>
      simp only [hv] at h
      cases hr : collectEntries bs rest with
      | error e' => simp [hr] at h; exact h ▸ ih e' hr
      | ok ids => simp [hr] at h

/-- Case analysis of `dispatch`: it either fails leaving the worker
untouched, or appends exactly one compute-pass command to the encoder. -/
lemma dispatch_cases (w : Worker) (i : Nat) (pr : Worker × Except Error Unit)
    (h : dispatch w i = some pr) :
    (pr.1 = w ∧ ∃ e, pr.2 = Except.error e) ∨
    (∃ cmds pc, w.command_encoder = some cmds ∧
      pr = ({ w with command_encoder := some (cmds ++ [pc]) }, Except.ok ())) := by
  unfold dispatch at h
  cases hs : w.steps[i]? with
  | none => simp [hs] at h
  | some s =>
    cases s with
    | Swap a b =>
      simp only [hs] at h
      injection h with h
      exact Or.inl ⟨by rw [← h], _, by rw [← h]⟩
    | ComputePass cp =>
      simp only [hs] at h
      cases hc : collectEntries w.buffers cp.vars with
      | error e =>
        simp only [hc] at h; injection h with h
        exact Or.inl ⟨by rw [← h], _, by rw [← h]⟩
      | ok entries =>
        simp only [hc] at h
        cases hp : w.pipelines.lookup cp.shader_uuid with
        | none =>
          simp only [hp] at h; injection h with h
          exact Or.inl ⟨by rw [← h], _, by rw [← h]⟩
        | some mpl =>
          cases mpl with
          | none =>
            simp only [hp] at h; injection h with h
            exact Or.inl ⟨by rw [← h], _, by rw [← h]⟩
          | some pl =>
            simp only [hp] at h
            cases he : w.command_encoder with
            | none =>
              simp only [he] at h; injection h with h
              exact Or.inl ⟨by rw [← h], _, by rw [← h]⟩
            | some cmds =>
              simp only [he] at h; injection h with h
              exact Or.inr ⟨cmds, EncCmd.pass pl entries cp.workgroups, rfl, by rw [← h]⟩

/-- Case analysis of `swap`: it either fails leaving the worker untouched,
or exchanges the values of the step's two names in the registry. -/
lemma swap_cases (w : Worker) (i : Nat) (pr : Worker × Except Error Unit)
    (h : swap w i = some pr) :
    (pr.1 = w ∧ ∃ e, pr.2 = Except.error e) ∨
    (∃ a b, w.steps[i]? = some (Step.Swap a b) ∧
      pr = ({ w with buffers := swapVals w.buffers a b }, Except.ok ())) := by
  unfold swap at h
  cases hs : w.steps[i]? with
  | none => simp [hs] at h
  | some s =>
    cases s with
    | ComputePass cp =>
      simp only [hs] at h
      injection h with h
      exact Or.inl ⟨by rw [← h], _, by rw [← h]⟩
    | Swap a b =>
      simp only [hs] at h
      by_cases ha : (w.buffers.lookup a).isNone
      · rw [if_pos ha] at h; injection h with h
        exact Or.inl ⟨by rw [← h], _, by rw [← h]⟩
      · rw [if_neg ha] at h
        by_cases hb : (w.buffers.lookup b).isNone
        · rw [if_pos hb] at h; injection h with h
          exact Or.inl ⟨by rw [← h], _, by rw [← h]⟩
        · rw [if_neg hb] at h
          by_cases hab : a = b
          · rw [if_pos hab] at h; simp at h
          · rw [if_neg hab] at h; injection h with h
            exact Or.inr ⟨a, b, rfl, by rw [← h]⟩

/-- On a `ComputePass` index `dispatch` never panics. -/
lemma dispatch_isSome (w : Worker) (i : Nat) (cp : ComputePass)
    (hs : w.steps[i]? = some (Step.ComputePass cp)) :
    ∃ pr, dispatch w i = some pr := by
  unfold dispatch
  simp only [hs]
  repeat' split
  all_goals exact ⟨_, rfl⟩

/-- On a `Swap` index with two distinct names `swap` never panics. -/
lemma swap_isSome (w : Worker) (i : Nat) (a b : String)
    (hs : w.steps[i]? = some (Step.Swap a b)) (hab : a ≠ b) :
    ∃ pr, swap w i = some pr := by
  unfold swap
  simp only [hs]
  rw [if_neg hab]
  repeat' split
  all_goals exact ⟨_, rfl⟩

/-- A step evaluation never panics on an in-range index whose step
satisfies `stepOk`, and its result keeps the worker's shape. -/
lemma stepEval_total (w : Worker) (i : Nat) (s : Step)
    (hs : w.steps[i]? = some s) (hok : stepOk s = true) :
    ∃ pr, stepEval w i = some pr ∧ sameShape w pr.1 := by
  unfold stepEval
  rw [hs]
  cases s with
  | ComputePass cp =>
    obtain ⟨pr, hpr⟩ := dispatch_isSome w i cp hs
    refine ⟨pr, hpr, ?_⟩
    rcases dispatch_cases w i pr hpr with ⟨heq, _⟩ | ⟨cmds, pc, henc, heq⟩
    · rw [heq]; exact sameShape_refl w
    · rw [heq]
      exact ⟨rfl, rfl, rfl, rfl, rfl, rfl, rfl, fun c hc => ⟨[pc], by
        rw [hc] at henc; injection henc with henc; rw [henc]⟩⟩
  | Swap a b =>
    have hab : a ≠ b := by simpa [stepOk] using hok
    obtain ⟨pr, hpr⟩ := swap_isSome w i a b hs hab
    refine ⟨pr, hpr, ?_⟩
    rcases swap_cases w i pr hpr with ⟨heq, _⟩ | ⟨a', b', _, heq⟩
    · rw [heq]; exact sameShape_refl w
    · rw [heq]
      exact ⟨rfl, rfl, rfl, rfl, rfl, rfl, swapVals_keys w.buffers a' b',
        fun c hc => ⟨[], by simpa using hc⟩⟩

/-- Any non-panicking step evaluation keeps the worker's shape. -/
lemma stepEval_shape (w : Worker) (i : Nat) (pr : Worker × Except Error Unit)
    (h : stepEval w i = some pr) : sameShape w pr.1 := by
  unfold stepEval at h
  cases hs : w.steps[i]? with
  | none => simp [hs] at h
  | some s =>
    cases s with
    | ComputePass cp =>
      simp only [hs] at h
      rcases dispatch_cases w i pr h with ⟨heq, _⟩ | ⟨cmds, pc, henc, heq⟩
      · rw [heq]; exact sameShape_refl w
      · rw [heq]
        exact ⟨rfl, rfl, rfl, rfl, rfl, rfl, rfl, fun c hc => ⟨[pc], by
          rw [hc] at henc; injection henc with henc; rw [henc]⟩⟩
    | Swap a b =>
      simp only [hs] at h
      rcases swap_cases w i pr h with ⟨heq, _⟩ | ⟨a', b', _, heq⟩
      · rw [heq]; exact sameShape_refl w
      · rw [heq]
        exact ⟨rfl, rfl, rfl, rfl, rfl, rfl, swapVals_keys w.buffers a' b',
          fun c hc => ⟨[], by simpa using hc⟩⟩

lemma writeStagingGo_ok :
    ∀ (l : List (String × StaggingBuffers)) (w : Worker) (cmds : List EncCmd),
    w.command_encoder = some cmds →
    (∀ p ∈ l, (w.buffers.lookup p.1).isSome = true) →
    writeStagingGo w l =
      ({ w with command_encoder := some (cmds ++ writeCmds w.buffers l) }, Except.ok ()) := by
  intro l
  induction l with
  | nil =>
    intro w cmds henc _
    simp only [writeStagingGo, writeCmds, List.append_nil, ← henc]
  | cons hd tl ih =>
    intro w cmds henc hcov
    obtain ⟨name, sb⟩ := hd
    obtain ⟨buf, hbuf⟩ := Option.isSome_iff_exists.mp (hcov (name, sb) (List.mem_cons_self _ _))
    simp only [writeStagingGo, henc, hbuf]
    rw [ih { w with command_encoder := some (cmds ++ [EncCmd.copy sb.write.id buf.id buf.size]) }
      (cmds ++ [EncCmd.copy sb.write.id buf.id buf.size]) rfl
      (fun p hp => hcov p (List.mem_cons_of_mem _ hp))]
    simp only [writeCmds, hbuf, List.append_assoc, List.singleton_append]

lemma readStagingGo_ok :
    ∀ (l : List (String × StaggingBuffers)) (w : Worker) (cmds : List EncCmd),
    w.command_encoder = some cmds →
    (∀ p ∈ l, (w.buffers.lookup p.1).isSome = true) →
    readStagingGo w l =
      ({ w with command_encoder := some (cmds ++ readCmds w.buffers l) }, Except.ok ()) := by
  intro l
  induction l with
  | nil =>
    intro w cmds henc _
    simp only [readStagingGo, readCmds, List.append_nil, ← henc]
  | cons hd tl ih =>
    intro w cmds henc hcov
    obtain ⟨name, sb⟩ := hd
    obtain ⟨buf, hbuf⟩ := Option.isSome_iff_exists.mp (hcov (name, sb) (List.mem_cons_self _ _))
    simp only [readStagingGo, henc, hbuf]
    rw [ih { w with command_encoder := some (cmds ++ [EncCmd.copy buf.id sb.read.id sb.read.size]) }
      (cmds ++ [EncCmd.copy buf.id sb.read.id sb.read.size]) rfl
      (fun p hp => hcov p (List.mem_cons_of_mem _ hp))]
    simp only [readCmds, hbuf, List.append_assoc, List.singleton_append]

lemma mapStagingGo_false (l : List (String × StaggingBuffers)) :
    mapStagingGo false l = (setReadMapped l, readMapEvents l) := by
  induction l with
  | nil => rfl
  | cons hd tl ih =>
    obtain ⟨name, sb⟩ := hd
    simp [mapStagingGo, ih, setReadMapped, readMapEvents]

lemma writeCmds_mem (buffers : List (String × Buffer)) :
    ∀ (l : List (String × StaggingBuffers)) (p : String × StaggingBuffers) (buf : Buffer),
    p ∈ l → buffers.lookup p.1 = some buf →
    EncCmd.copy p.2.write.id buf.id buf.size ∈ writeCmds buffers l := by
  intro l
  induction l with
  | nil => intro p buf hp; simp at hp
  | cons hd tl ih =>
    intro p buf hp hbuf
    rcases List.mem_cons.mp hp with heq | htl
    · subst heq
      obtain ⟨name, sb⟩ := p
      simp only [writeCmds]
      simp only at hbuf
      rw [hbuf]
      simp
    · obtain ⟨name, sb⟩ := hd
      simp only [writeCmds]
      exact List.mem_append_right _ (ih p buf htl hbuf)

lemma runStepsGo_spec :
    ∀ (k : Nat) (w : Worker) (i : Nat), (∀ s ∈ w.steps, stepOk s = true) →
    i + k = w.steps.length →
    ∃ w2, runStepsGo w i k = some w2 ∧ sameShape w w2 := by
  intro k
  induction k with
  | zero => intro w i _ _; exact ⟨w, rfl, sameShape_refl w⟩
  | succ k ih =>
    intro w i hok hlen
    have hi : i < w.steps.length := by omega
    have hs : w.steps[i]? = some w.steps[i] := List.getElem?_eq_getElem hi
    obtain ⟨pr, hpr, hshape⟩ := stepEval_total w i w.steps[i] hs
      (hok _ (List.getElem?_mem hs))
    obtain ⟨w2, hrun, hshape2⟩ := ih pr.1 (i + 1)
      (fun t ht => hok t (by rw [hshape.1] at ht; exact ht))
      (by rw [hshape.1]; omega)
    refine ⟨w2, ?_, sameShape_trans hshape hshape2⟩
    simp only [runStepsGo, hpr]
    exact hrun

lemma uploadStage_ok (w : Worker) (cmds : List EncCmd)
    (henc : w.command_encoder = some cmds) (hcov : stagingCovered w) :
    ∃ w1, uploadStage w = some w1 ∧
      w1.command_encoder = some (cmds ++
        (if w.write_requested then writeCmds w.buffers w.staging_buffers else [])) ∧
      w1.write_requested = false ∧
      w1.steps = w.steps ∧ w1.staging_buffers = w.staging_buffers ∧
      w1.buffers = w.buffers ∧ w1.pipelines = w.pipelines ∧
      w1.state = w.state ∧ w1.run_mode = w.run_mode := by
  unfold uploadStage
  by_cases hwr : w.write_requested
  · rw [if_pos hwr, write_staging_buffers, writeStagingGo_ok w.staging_buffers w cmds henc hcov]
    exact ⟨_, rfl, by simp [hwr], rfl, rfl, rfl, rfl, rfl, rfl, rfl⟩
  · rw [if_neg hwr]
    refine ⟨w, rfl, ?_, ?_, rfl, rfl, rfl, rfl, rfl, rfl⟩
    · simp [henc, hwr]
    · simpa using hwr

lemma stageOutputs_ok (w : Worker) (cmds : List EncCmd)
    (henc : w.command_encoder = some cmds) (hcov : stagingCovered w) :
    ∃ w3, stageOutputs w = some w3 ∧
      w3.command_encoder = some (cmds ++ readCmds w.buffers w.staging_buffers) ∧
      w3.write_requested = w.write_requested ∧
      w3.steps = w.steps ∧ w3.staging_buffers = w.staging_buffers ∧
      w3.buffers = w.buffers ∧ w3.pipelines = w.pipelines ∧
      w3.state = w.state ∧ w3.run_mode = w.run_mode := by
  unfold stageOutputs
  rw [read_staging_buffers, readStagingGo_ok w.staging_buffers w cmds henc hcov]
  exact ⟨_, rfl, rfl, rfl, rfl, rfl, rfl, rfl, rfl, rfl⟩

lemma submit_ok (w : Worker) (cmds : List EncCmd) (henc : w.command_encoder = some cmds) :
    submit w = some ({ w with command_encoder := none, state := WorkerState.Working },
      [Event.submit cmds]) := by
  unfold submit
  rw [henc]

lemma map_staging_buffers_ok (w : Worker) (hwr : w.write_requested = false) :
    map_staging_buffers w =
      ({ w with staging_buffers := setReadMapped w.staging_buffers },
       readMapEvents w.staging_buffers) := by
  unfold map_staging_buffers
  rw [hwr, mapStagingGo_false]

/-- Full behaviour of the executing branch of `run` on a well-formed
worker: one submission whose recorded commands include (when a write was
pending) the write-staging copies, followed by a read-mode map request per
staging pair; the worker leaves in `Working` with a taken encoder, a
cleared pending-write flag, every `read_mapped` flag set and every
`write_mapped` flag untouched. -/
lemma execBranch_spec (w : Worker) (hwf : WFcore w) :
    ∃ (w5 : Worker) (cmds : List EncCmd),
      execBranch w = some (w5, Event.submit cmds :: readMapEvents w.staging_buffers) ∧
      w5.state = WorkerState.Working ∧
      w5.command_encoder = none ∧
      w5.run_mode = w.run_mode ∧
      w5.write_requested = false ∧
      w5.steps = w.steps ∧
      w5.staging_buffers = setReadMapped w.staging_buffers ∧
      w5.buffers.map Prod.fst = w.buffers.map Prod.fst ∧
      w5.pipelines = w.pipelines ∧
      (w.write_requested = true →
        ∀ pr ∈ w.staging_buffers, ∃ buf, w.buffers.lookup pr.1 = some buf ∧
          EncCmd.copy pr.2.write.id buf.id buf.size ∈ cmds) := by
  obtain ⟨⟨hcov, hok⟩, hencS⟩ := hwf
  obtain ⟨cmds0, henc⟩ := Option.isSome_iff_exists.mp hencS
  obtain ⟨w1, hup, henc1, hwr1, hsteps1, hstag1, hbuf1, hpip1, hstate1, hmode1⟩ :=
    uploadStage_ok w cmds0 henc hcov
  obtain ⟨w2, hrun, hshape⟩ := runStepsGo_spec w1.steps.length w1 0
    (fun s hsm => hok s (by rwa [hsteps1] at hsm)) (by omega)
  obtain ⟨hsteps2, hstag2, hstate2, hmode2, hwr2, hpip2, hkeys2, hext2⟩ := hshape
  obtain ⟨ext, henc2⟩ := hext2 _ henc1
  have hcov2 : stagingCovered w2 := by
    intro p hp
    rw [hstag2, hstag1] at hp
    rw [lookup_isSome_congr w2.buffers w.buffers (by rw [hkeys2, hbuf1]) p.1]
    exact hcov p hp
  obtain ⟨w3, hst, henc3, hwr3, hsteps3, hstag3, hbuf3, hpip3, hstate3, hmode3⟩ :=
    stageOutputs_ok w2 _ henc2 hcov2
  have hsub := submit_ok w3 _ henc3
  have hwr4 : w3.write_requested = false := by rw [hwr3, hwr2, hwr1]
  have hstagw : w3.staging_buffers = w.staging_buffers := by rw [hstag3, hstag2, hstag1]
  have hmap := map_staging_buffers_ok { w3 with command_encoder := none, state := WorkerState.Working } (by simpa using hwr4)
  rw [hstagw] at hsub hmap
  apply Exists.intro
  apply Exists.intro
  refine ⟨?_, ?_, ?_, ?_, ?_, ?_, ?_, ?_, ?_, ?_⟩
  · unfold execBranch
    simp only [hup, hrun, hst, hsub, hmap, List.singleton_append]
    rfl
  · rfl
  · rfl
  · show w3.run_mode = w.run_mode
    rw [hmode3, hmode2, hmode1]
  · show w3.write_requested = false
    exact hwr4
  · show w3.steps = w.steps
    rw [hsteps3, hsteps2, hsteps1]
  · show setReadMapped w.staging_buffers = setReadMapped w.staging_buffers
    rfl
  · show w3.buffers.map Prod.fst = w.buffers.map Prod.fst
    rw [hbuf3, hkeys2, hbuf1]
  · show w3.pipelines = w.pipelines
    rw [hpip3, hpip2, hpip1]
  · intro hwreq pr hpr
    obtain ⟨buf, hbuf⟩ := Option.isSome_iff_exists.mp (hcov pr hpr)
    refine ⟨buf, hbuf, ?_⟩
    simp only [hwreq, if_true]
    exact List.mem_append_left _ (List.mem_append_left _
      (List.mem_append_right _ (writeCmds_mem w.buffers w.staging_buffers pr buf hpr hbuf)))

lemma ready_to_execute_parts {w : Worker} (h : ready_to_execute w = true) :
    w.state ≠ WorkerState.Working ∧ w.run_mode ≠ RunMode.OneShot false := by
  unfold ready_to_execute at h
  simpa [Bool.and_eq_true, bne_iff_ne] using h

/-- One executing cycle of `run` on a well-formed worker: exactly one
submission whose commands include (when a write was pending) every
write-staging copy, followed by the read-mode map requests; final state
`FinishedWorking` with a fresh encoder and reset mode when the poll
reports completion, `Working` with no encoder otherwise; the
pending-write flag ends cleared. -/
lemma runTick_exec_spec (w : Worker) (p : Bool) (hwf : WFcore w)
    (hrte : ready_to_execute w = true) :
    ∃ w' cmds,
      runTick w p = some (w', Event.submit cmds :: readMapEvents w.staging_buffers) ∧
      w'.staging_buffers = setReadMapped w.staging_buffers ∧
      w'.steps = w.steps ∧
      w'.buffers.map Prod.fst = w.buffers.map Prod.fst ∧
      w'.pipelines = w.pipelines ∧
      w'.write_requested = false ∧
      w'.run_mode = (if p = true then finishMode w.run_mode else w.run_mode) ∧
      w'.state = (if p = true then WorkerState.FinishedWorking else WorkerState.Working) ∧
      w'.command_encoder = (if p = true then some [] else none) ∧
      (w.write_requested = true →
        ∀ pr ∈ w.staging_buffers, ∃ buf, w.buffers.lookup pr.1 = some buf ∧
          EncCmd.copy pr.2.write.id buf.id buf.size ∈ cmds) := by
  obtain ⟨hnw, hmode⟩ := ready_to_execute_parts hrte
  by_cases hr : ready w
  · have hwf0 : WFcore { w with state := WorkerState.Available } := hwf
    have hrte0 : ready_to_execute { w with state := WorkerState.Available } = true := by
      simp [ready_to_execute, bne_iff_ne, hmode]
    obtain ⟨w5, cmds, heb, hstate5, henc5, hmode5, hwr5, hsteps5, hstag5, hkeys5, hpip5, hmem5⟩ :=
      execBranch_spec { w with state := WorkerState.Available } hwf0
    cases p with
    | true =>
      refine ⟨{ w5 with state := WorkerState.FinishedWorking, command_encoder := some [], run_mode := finishMode w5.run_mode }, cmds, ?_, ?_, ?_, ?_, ?_, ?_, ?_, ?_, ?_, ?_⟩
      · unfold runTick
        simp only [hr, if_true, hrte0, heb]
        simp [hmode5, hmode]
      · exact hstag5
      · exact hsteps5
      · exact hkeys5
      · exact hpip5
      · exact hwr5
      · simp only [if_pos rfl]
        show finishMode w5.run_mode = finishMode w.run_mode
        rw [hmode5]
      · simp
      · simp
      · exact hmem5
    | false =>
      refine ⟨w5, cmds, ?_, ?_, ?_, ?_, ?_, ?_, ?_, ?_, ?_, ?_⟩
      · unfold runTick
        simp only [hr, if_true, hrte0, heb]
        simp [hmode5, hmode]
      · exact hstag5
      · exact hsteps5
      · exact hkeys5
      · exact hpip5
      · exact hwr5
      · simp only [if_neg (by simp : ¬((false : Bool) = true))]
        rw [hmode5]
      · simpa using hstate5
      · simpa using henc5
      · exact hmem5
  · obtain ⟨w5, cmds, heb, hstate5, henc5, hmode5, hwr5, hsteps5, hstag5, hkeys5, hpip5, hmem5⟩ :=
      execBranch_spec w hwf
    cases p with
    | true =>
      refine ⟨{ w5 with state := WorkerState.FinishedWorking, command_encoder := some [], run_mode := finishMode w5.run_mode }, cmds, ?_, ?_, ?_, ?_, ?_, ?_, ?_, ?_, ?_, ?_⟩
      · unfold runTick
        simp only [hr, if_false, Bool.false_eq_true, hrte, heb]
        simp [hmode5, hmode]
      · exact hstag5
      · exact hsteps5
      · exact hkeys5
      · exact hpip5
      · exact hwr5
      · simp only [if_pos rfl]
        show finishMode w5.run_mode = finishMode w.run_mode
        rw [hmode5]
      · simp
      · simp
      · exact hmem5
    | false =>
      refine ⟨w5, cmds, ?_, ?_, ?_, ?_, ?_, ?_, ?_, ?_, ?_, ?_⟩
      · unfold runTick
        simp only [hr, if_false, Bool.false_eq_true, hrte, heb]
        simp [hmode5, hmode]
      · exact hstag5
      · exact hsteps5
      · exact hkeys5
      · exact hpip5
      · exact hwr5
      · simp only [if_neg (by simp : ¬((false : Bool) = true))]
        rw [hmode5]
      · simpa using hstate5
      · simpa using henc5
      · exact hmem5

lemma writeStagingGo_steps : ∀ (l : List (String × StaggingBuffers)) (w : Worker),
    (writeStagingGo w l).1.steps = w.steps := by
  intro l
  induction l with
  | nil => intro w; rfl
  | cons hd tl ih =>
    intro w
    obtain ⟨name, sb⟩ := hd
    simp only [writeStagingGo]
    cases he : w.command_encoder with
    | none => rfl
    | some cmds =>
      cases hb : w.buffers.lookup name with
      | none => rfl
      | some buf => exact ih _

lemma readStagingGo_steps : ∀ (l : List (String × StaggingBuffers)) (w : Worker),
    (readStagingGo w l).1.steps = w.steps := by
  intro l
  induction l with
  | nil => intro w; rfl
  | cons hd tl ih =>
    intro w
    obtain ⟨name, sb⟩ := hd
    simp only [readStagingGo]
    cases he : w.command_encoder with
    | none => rfl
    | some cmds =>
      cases hb : w.buffers.lookup name with
      | none => rfl
      | some buf => exact ih _

lemma runStepsGo_steps : ∀ (k i : Nat) (w w' : Worker),
    runStepsGo w i k = some w' → w'.steps = w.steps := by
  intro k
  induction k with
  | zero =>
    intro i w w' h
    injection h with h
    rw [← h]
  | succ k ih =>
    intro i w w' h
    simp only [runStepsGo] at h
    cases hse : stepEval w i with
    | none => rw [hse] at h; simp at h
    | some pr =>
      rw [hse] at h
      exact (ih _ _ _ h).trans (stepEval_shape w i pr hse).1

lemma uploadStage_steps (w w1 : Worker) (h : uploadStage w = some w1) :
    w1.steps = w.steps := by
  unfold uploadStage at h
  by_cases hwr : w.write_requested
  · rw [if_pos hwr] at h
    have hsteps := writeStagingGo_steps w.staging_buffers w
    cases hgo : write_staging_buffers w with
    | mk wg r =>
      rw [show write_staging_buffers w = writeStagingGo w w.staging_buffers from rfl] at hgo
      rw [hgo] at hsteps
      simp only [write_staging_buffers, hgo] at h
      cases r with
      | error e => simp at h
      | ok u =>
        simp only at h
        injection h with h
        rw [← h]
        exact hsteps
  · rw [if_neg hwr] at h
    injection h with h
    rw [← h]

lemma stageOutputs_steps (w w3 : Worker) (h : stageOutputs w = some w3) :
    w3.steps = w.steps := by
  unfold stageOutputs at h
  have hsteps := readStagingGo_steps w.staging_buffers w
  cases hgo : read_staging_buffers w with
  | mk wg r =>
    rw [show read_staging_buffers w = readStagingGo w w.staging_buffers from rfl] at hgo
    rw [hgo] at hsteps
    simp only [read_staging_buffers, hgo] at h
    cases r with
    | error e => simp at h
    | ok u =>
      simp only at h
      injection h with h
      rw [← h]
      exact hsteps

lemma submit_steps (w w4 : Worker) (evs : List Event) (h : submit w = some (w4, evs)) :
    w4.steps = w.steps := by
  unfold submit at h
  cases he : w.command_encoder with
  | none => rw [he] at h; simp at h
  | some cmds =>
    rw [he] at h
    simp only at h
    injection h with h
    injection h with h1 h2
    rw [← h1]

lemma map_staging_buffers_steps (w : Worker) :
    (map_staging_buffers w).1.steps = w.steps := rfl

lemma execBranch_steps (w w' : Worker) (evs : List Event)
    (h : execBranch w = some (w', evs)) : w'.steps = w.steps := by
  unfold execBranch at h
  cases hup : uploadStage w with
  | none => rw [hup] at h; simp at h
  | some w1 =>
    rw [hup] at h
    simp only at h
    cases hrun : runStepsGo w1 0 w1.steps.length with
    | none => rw [hrun] at h; simp at h
    | some w2 =>
      rw [hrun] at h
      simp only at h
      cases hst : stageOutputs w2 with
      | none => rw [hst] at h; simp at h
      | some w3 =>
        rw [hst] at h
        simp only at h
        cases hsub : submit w3 with
        | none => rw [hsub] at h; simp at h
        | some pr =>
          obtain ⟨w4, evs4⟩ := pr
          rw [hsub] at h
          simp only at h
          cases hmap : map_staging_buffers w4 with
          | mk w5 evs5 =>
            rw [hmap] at h
            simp only at h
            injection h with h
            injection h with h1 h2
            rw [← h1]
            have e5 : w5.steps = w4.steps := by
              have := map_staging_buffers_steps w4
              rw [hmap] at this
              exact this
            rw [e5, submit_steps w3 w4 evs4 hsub, stageOutputs_steps w2 w3 hst,
              runStepsGo_steps w1.steps.length 0 w1 w2 hrun, uploadStage_steps w w1 hup]

lemma runTick_steps (w : Worker) (p : Bool) (w' : Worker) (evs : List Event)
    (h : runTick w p = some (w', evs)) : w'.steps = w.steps := by
  simp only [runTick] at h
  by_cases hr : ready w
  all_goals simp only [hr, if_true, if_false, Bool.false_eq_true] at h
  · by_cases hrte : ready_to_execute { w with state := WorkerState.Available }
    all_goals simp only [hrte, if_true, if_false, Bool.false_eq_true] at h
    · cases heb : execBranch { w with state := WorkerState.Available } with
      | none => rw [heb] at h; simp at h
      | some pr =>
        obtain ⟨w1, evs1⟩ := pr
        rw [heb] at h
        simp only at h
        have h1s : w1.steps = w.steps :=
          execBranch_steps { w with state := WorkerState.Available } w1 evs1 heb
        split at h
        all_goals (injection h with h; injection h with ha hb; rw [← ha])
        · exact h1s
        · exact h1s
    · split at h
      all_goals (injection h with h; injection h with ha hb; rw [← ha])
  · by_cases hrte : ready_to_execute w
    all_goals simp only [hrte, if_true, if_false, Bool.false_eq_true] at h
    · cases heb : execBranch w with
      | none => rw [heb] at h; simp at h
      | some pr =>
        obtain ⟨w1, evs1⟩ := pr
        rw [heb] at h
        simp only at h
        have h1s : w1.steps = w.steps := execBranch_steps w w1 evs1 heb
        split at h
        all_goals (injection h with h; injection h with ha hb; rw [← ha])
        · exact h1s
        · exact h1s
    · split at h
      all_goals (injection h with h; injection h with ha hb; rw [← ha])

lemma runTick_working (w : Worker) (p : Bool) (hst : w.state = WorkerState.Working) :
    runTick w p = some (if w.run_mode ≠ RunMode.OneShot false ∧ p = true
      then { w with state := WorkerState.FinishedWorking, command_encoder := some [], run_mode := finishMode w.run_mode }
      else w, []) := by
  have hr : ready w = false := by simp [ready, hst]
  have hrte : ready_to_execute w = false := by simp [ready_to_execute, hst]
  simp only [runTick, hr, Bool.false_eq_true, if_false, hrte]
  split <;> rfl

lemma runTick_idle_oneshot (w : Worker) (p : Bool)
    (hmode : w.run_mode = RunMode.OneShot false) :
    runTick w p = some (if ready w then { w with state := WorkerState.Available } else w, []) := by
  have hrte : ∀ u : Worker, u.run_mode = RunMode.OneShot false → ready_to_execute u = false := by
    intro u hu; simp [ready_to_execute, hu]
  by_cases hr : ready w
  · simp only [runTick, hr, if_true]
    rw [hrte { w with state := WorkerState.Available } (by simpa using hmode)]
    simp [hmode]
  · simp only [runTick, hr, Bool.false_eq_true, if_false]
    rw [hrte w hmode]
    simp [hmode]

lemma stagingCovered_transport (w w' : Worker)
    (hst : w'.staging_buffers = setReadMapped w.staging_buffers)
    (hb : w'.buffers.map Prod.fst = w.buffers.map Prod.fst)
    (h : stagingCovered w) : stagingCovered w' := by
  intro q hq
  rw [hst] at hq
  obtain ⟨q0, hq0, hfq⟩ := List.mem_map.mp hq
  rw [lookup_isSome_congr w'.buffers w.buffers hb q.1, ← hfq]
  exact h q0 hq0

lemma WFcore_after_exec (w w' : Worker)
    (hstag : w'.staging_buffers = setReadMapped w.staging_buffers)
    (hkeys : w'.buffers.map Prod.fst = w.buffers.map Prod.fst)
    (hsteps : w'.steps = w.steps)
    (henc : w'.command_encoder = some [])
    (hwf : WFcore w) : WFcore w' := by
  refine ⟨⟨stagingCovered_transport w w' hstag hkeys hwf.1.1, ?_⟩, by simp [henc]⟩
  intro s hs
  rw [hsteps] at hs
  exact hwf.1.2 s hs

/-- Phase of a one-shot run before its submission: idle state, request
pending. -/
def PhaseA (w : Worker) : Prop :=
  (w.state = WorkerState.Created ∨ w.state = WorkerState.Available) ∧
  w.run_mode = RunMode.OneShot true ∧ WFcore w

/-- Phase of a one-shot run after submission, before the poll observes
completion. -/
def PhaseB (w : Worker) : Prop :=
  w.state = WorkerState.Working ∧ w.run_mode = RunMode.OneShot true ∧ WFstatic w

/-- Phase of a one-shot run after completion: requested flag reset, never
executing again without a new request. -/
def PhaseC (w : Worker) : Prop :=
  (w.state = WorkerState.FinishedWorking ∨ w.state = WorkerState.Available) ∧
  w.run_mode = RunMode.OneShot false ∧ WFcore w

lemma tickA (w : Worker) (p : Bool) (h : PhaseA w) :
    ∃ w1 evs1, runTick w p = some (w1, evs1) ∧ submitCount evs1 = 1 ∧
      (p = true → PhaseC w1 ∧ w1.state = WorkerState.FinishedWorking) ∧
      (p = false → PhaseB w1) := by
  obtain ⟨hstA, hmodeA, hwf⟩ := h
  have hrte : ready_to_execute w = true := by
    rcases hstA with h1 | h1 <;> simp [ready_to_execute, h1, hmodeA]
  obtain ⟨w', cmds, htick, hstag, hsteps, hkeys, hpip, hwr, hmode', hstate', henc', hmem⟩ :=
    runTick_exec_spec w p hwf hrte
  refine ⟨w', _, htick, ?_, ?_, ?_⟩
  · simp [submitCount, submitCount_readMapEvents]
  · intro hp
    subst hp
    refine ⟨⟨Or.inl (by simpa using hstate'), ?_, ?_⟩, by simpa using hstate'⟩
    · rw [hmode']
      simp [hmodeA, finishMode]
    · exact WFcore_after_exec w w' hstag hkeys hsteps (by simpa using henc') hwf
  · intro hp
    subst hp
    refine ⟨by simpa using hstate', by rw [hmode']; simpa using hmodeA, ?_, ?_⟩
    · exact stagingCovered_transport w w' hstag hkeys hwf.1.1
    · intro s hs
      rw [hsteps] at hs
      exact hwf.1.2 s hs

lemma tickB (w : Worker) (p : Bool) (h : PhaseB w) :
    ∃ w1, runTick w p = some (w1, []) ∧
      (p = true → PhaseC w1 ∧ w1.state = WorkerState.FinishedWorking) ∧
      (p = false → PhaseB w1) := by
  obtain ⟨hst, hmode, hwfs⟩ := h
  have htick := runTick_working w p hst
  cases p with
  | true =>
    rw [if_pos ⟨by rw [hmode]; simp, rfl⟩] at htick
    refine ⟨_, htick, fun _ => ⟨⟨Or.inl rfl, ?_, ⟨hwfs, rfl⟩⟩, rfl⟩, fun habs => by simp at habs⟩
    show finishMode w.run_mode = RunMode.OneShot false
    rw [hmode]
    rfl
  | false =>
    rw [if_neg (by simp)] at htick
    exact ⟨w, htick, fun habs => by simp at habs, fun _ => ⟨hst, hmode, hwfs⟩⟩

lemma tickC (w : Worker) (p : Bool) (h : PhaseC w) :
    ∃ w1, runTick w p = some (w1, []) ∧ PhaseC w1 ∧ w1.state = WorkerState.Available := by
  obtain ⟨hstC, hmode, hwf⟩ := h
  have htick := runTick_idle_oneshot w p hmode
  rcases hstC with h1 | h1
  · rw [if_pos (by simp [ready, h1])] at htick
    exact ⟨_, htick, ⟨Or.inr rfl, hmode, hwf⟩, rfl⟩
  · rw [if_neg (by simp [ready, h1])] at htick
    exact ⟨w, htick, ⟨Or.inr h1, hmode, hwf⟩, h1⟩

lemma ticksC (w : Worker) (ps : List Bool) (h : PhaseC w) :
    ∃ wf, runTicks w ps = some (wf, []) ∧ PhaseC wf := by
  induction ps generalizing w with
  | nil => exact ⟨w, rfl, h⟩
  | cons p ps ih =>
    obtain ⟨w1, htick, hC, _⟩ := tickC w p h
    obtain ⟨wf, hticks, hCf⟩ := ih w1 hC
    refine ⟨wf, ?_, hCf⟩
    simp only [runTicks, htick, hticks, List.append_nil]

lemma ticksB (w : Worker) (ps : List Bool) (h : PhaseB w) :
    ∃ wf, runTicks w ps = some (wf, []) ∧ (PhaseB wf ∨ PhaseC wf) := by
  induction ps generalizing w with
  | nil => exact ⟨w, rfl, Or.inl h⟩
  | cons p ps ih =>
    obtain ⟨w1, htick, hT, hF⟩ := tickB w p h
    cases p with
    | true =>
      obtain ⟨hC, _⟩ := hT rfl
      obtain ⟨wf, hticks, hCf⟩ := ticksC w1 ps hC
      exact ⟨wf, by simp only [runTicks, htick, hticks, List.append_nil], Or.inr hCf⟩
    | false =>
      obtain ⟨wf, hticks, hBC⟩ := ih w1 (hF rfl)
      exact ⟨wf, by simp only [runTicks, htick, hticks, List.append_nil], hBC⟩

lemma ticksA (w : Worker) (ps : List Bool) (h : PhaseA w) :
    ∃ wf evs, runTicks w ps = some (wf, evs) ∧ submitCount evs ≤ 1 ∧
      (ready wf = true → submitCount evs = 1 ∧ PhaseC wf) := by
  cases ps with
  | nil =>
    refine ⟨w, [], rfl, by simp [submitCount], ?_⟩
    intro hrw
    rcases h.1 with h1 | h1 <;> simp [ready, h1] at hrw
  | cons p ps =>
    obtain ⟨w1, evs1, htick, hcnt, hT, hF⟩ := tickA w p h
    cases p with
    | true =>
      obtain ⟨hC, _⟩ := hT rfl
      obtain ⟨wf, hticks, hCf⟩ := ticksC w1 ps hC
      refine ⟨wf, evs1 ++ [], by simp only [runTicks, htick, hticks], ?_, ?_⟩
      · simp [submitCount_append, submitCount, hcnt]
      · intro _
        exact ⟨by simp [submitCount_append, submitCount, hcnt], hCf⟩
    | false =>
      obtain ⟨wf, hticks, hBC⟩ := ticksB w1 ps (hF rfl)
      refine ⟨wf, evs1 ++ [], by simp only [runTicks, htick, hticks], ?_, ?_⟩
      · simp [submitCount_append, submitCount, hcnt]
      · intro hrw
        rcases hBC with hB | hC
        · simp [ready, hB.1] at hrw
        · exact ⟨by simp [submitCount_append, submitCount, hcnt], hC⟩

lemma stepEval_error_unchanged (w : Worker) (i : Nat) (w1 : Worker) (e : Error)
    (h : stepEval w i = some (w1, Except.error e)) : w1 = w := by
  unfold stepEval at h
  cases hs : w.steps[i]? with
  | none => rw [hs] at h; simp at h
  | some st =>
    cases st with
    | ComputePass cp =>
      simp only [hs] at h
      rcases dispatch_cases w i (w1, Except.error e) h with ⟨h1, _⟩ | ⟨cmds, pc, _, habs⟩
      · exact h1
      · exact absurd (congrArg Prod.snd habs) (by simp)
    | Swap a b =>
      simp only [hs] at h
      rcases swap_cases w i (w1, Except.error e) h with ⟨h1, _⟩ | ⟨a', b', _, habs⟩
      · exact h1
      · exact absurd (congrArg Prod.snd habs) (by simp)

/-- The errors a step of the loop can produce: only lookup and pipeline
failures, never `InvalidStep`. -/
lemma stepEval_error_shape (w : Worker) (i : Nat) (pr : Worker × Except Error Unit)
    (e : Error) (h : stepEval w i = some pr) (he : pr.2 = Except.error e) :
    (∃ n, e = Error.BufferNotFound n) ∨ e = Error.PipelinesEmpty ∨
      e = Error.PipelineNotReady ∨ e = Error.EncoderIsNone := by
  unfold stepEval at h
  cases hs : w.steps[i]? with
  | none => rw [hs] at h; simp at h
  | some st =>
    cases st with
    | ComputePass cp =>
      simp only [hs] at h
      unfold dispatch at h
      simp only [hs] at h
      cases hc : collectEntries w.buffers cp.vars with
      | error e1 =>
        simp only [hc] at h
        injection h with h
        rw [← h] at he
        simp only at he
        injection he with he
        obtain ⟨n, hn⟩ := collectEntries_error w.buffers cp.vars e1 hc
        exact Or.inl ⟨n, by rw [← he, hn]⟩
      | ok entries =>
        simp only [hc] at h
        cases hp : w.pipelines.lookup cp.shader_uuid with
        | none =>
          simp only [hp] at h
          injection h with h
          rw [← h] at he
          simp only at he
          injection he with he
          exact Or.inr (Or.inl he.symm)
        | some mpl =>
          cases mpl with
          | none =>
            simp only [hp] at h
            injection h with h
            rw [← h] at he
            simp only at he
            injection he with he
            exact Or.inr (Or.inr (Or.inl he.symm))
          | some pl =>
            simp only [hp] at h
            cases hen : w.command_encoder with
            | none =>
              simp only [hen] at h
              injection h with h
              rw [← h] at he
              simp only at he
              injection he with he
              exact Or.inr (Or.inr (Or.inr he.symm))
            | some cmds =>
              simp only [hen] at h
              injection h with h
              rw [← h] at he
              simp at he
    | Swap a b =>
      simp only [hs] at h
      unfold swap at h
      simp only [hs] at h
      by_cases ha : (w.buffers.lookup a).isNone
      · rw [if_pos ha] at h
        injection h with h
        rw [← h] at he
        simp only at he
        injection he with he
        exact Or.inl ⟨a, he.symm⟩
      · rw [if_neg ha] at h
        by_cases hb : (w.buffers.lookup b).isNone
        · rw [if_pos hb] at h
          injection h with h
          rw [← h] at he
          simp only at he
          injection he with he
          exact Or.inl ⟨b, he.symm⟩
        · rw [if_neg hb] at h
          by_cases hab : a = b
          · rw [if_pos hab] at h
            simp at h
          · rw [if_neg hab] at h
            injection h with h
            rw [← h] at he
            simp at he

lemma cont_tick (w : Worker)
    (hmode : w.run_mode = RunMode.Continuous)
    (hst : w.state ≠ WorkerState.Working) (hwf : WFcore w) :
    ∃ w1 evs1, runTick w true = some (w1, evs1) ∧ submitCount evs1 = 1 ∧
      w1.run_mode = RunMode.Continuous ∧ w1.state = WorkerState.FinishedWorking ∧
      ready_to_execute w = true ∧ WFcore w1 := by
  have hrte : ready_to_execute w = true := by
    simp [ready_to_execute, bne_iff_ne, hst, hmode]
  obtain ⟨w', cmds, htick, hstag, hsteps, hkeys, hpip, hwr, hmode', hstate', henc', hmem⟩ :=
    runTick_exec_spec w true hwf hrte
  refine ⟨w', _, htick, by simp [submitCount, submitCount_readMapEvents], ?_,
    by simpa using hstate', hrte, ?_⟩
  · rw [hmode']
    simp [hmode, finishMode]
  · exact WFcore_after_exec w w' hstag hkeys hsteps (by simpa using henc') hwf

lemma cont_ticks (n : Nat) : ∀ (w : Worker), w.run_mode = RunMode.Continuous →
    w.state ≠ WorkerState.Working → WFcore w →
    ∃ wf evs, runTicks w (List.replicate n true) = some (wf, evs) ∧
      submitCount evs = n ∧ wf.run_mode = RunMode.Continuous ∧
      wf.state ≠ WorkerState.Working := by
  induction n with
  | zero =>
    intro w hmode hst _
    exact ⟨w, [], rfl, rfl, hmode, hst⟩
  | succ n ih =>
    intro w hmode hst hwf
    obtain ⟨w1, evs1, htick, hcnt, hmode1, hstate1, _, hwf1⟩ := cont_tick w hmode hst hwf
    obtain ⟨wf, evs, hticks, hcnts, hmodef, hstf⟩ := ih w1 hmode1 (by rw [hstate1]; simp) hwf1
    refine ⟨wf, evs1 ++ evs, ?_, ?_, hmodef, hstf⟩
    · simp only [List.replicate, runTicks, htick, hticks]
    · rw [submitCount_append, hcnt, hcnts]
      omega

def c1w : Worker where
  state := WorkerState.Available
  pipelines := []
  buffers := [("a", { id := 0, size := 4, data := [] })]
  staging_buffers := [("a", { read := { id := 1, size := 4, data := [] }, read_mapped := false, write := { id := 2, size := 4, data := [] }, write_mapped := false })]
  steps := []
  command_encoder := some []
  write_requested := true
  run_mode := RunMode.Continuous

def c1res : Worker where
  state := WorkerState.FinishedWorking
  pipelines := []
  buffers := [("a", { id := 0, size := 4, data := [] })]
  staging_buffers := [("a", { read := { id := 1, size := 4, data := [] }, read_mapped := true, write := { id := 2, size := 4, data := [] }, write_mapped := false })]
  steps := []
  command_encoder := some []
  write_requested := false
  run_mode := RunMode.Continuous

def c1evs : List Event :=
  [Event.submit [EncCmd.copy 2 0 4, EncCmd.copy 0 1 4], Event.mapAsync 1 MapMode.read]

/-- C1 counterexample: a cycle that enters the execute branch with a write
pending (`c1w.write_requested = true`) issues no write-mode map request
(`writeMapCount c1evs = 0`) and leaves `write_mapped = false` on the only
write-staging buffer — because `run` clears the pending-write flag at line
387 before `map_staging_buffers` reads it at line 401, the write-mapping
branch is dead during a tick, contradicting the claim. -/
theorem map_write_pending_counterexample :
    c1w.write_requested = true ∧ ready_to_execute c1w = true ∧
    runTick c1w true = some (c1res, c1evs) ∧
    writeMapCount c1evs = 0 ∧
    c1res.staging_buffers = [("a", { read := { id := 1, size := 4, data := [] }, read_mapped := true, write := { id := 2, size := 4, data := [] }, write_mapped := false })] := by
  refine ⟨rfl, by decide, by decide, by decide, by decide⟩

/-- C1 (amended): every executing cycle issues exactly the read-mode map
requests — one per staging pair, each marked `read_mapped` by
`setReadMapped`, which leaves `write_mapped` untouched — and never a
write-mode map request, even when a write was pending, because the
pending-write flag is cleared before `map_staging_buffers` runs. -/
theorem map_requests_read_only (w : Worker) (p : Bool) (hwf : WFcore w)
    (hrte : ready_to_execute w = true) :
    ∃ w' cmds, runTick w p = some (w', Event.submit cmds :: readMapEvents w.staging_buffers) ∧
      w'.staging_buffers = setReadMapped w.staging_buffers ∧
      writeMapCount (Event.submit cmds :: readMapEvents w.staging_buffers) = 0 := by
  obtain ⟨w', cmds, htick, hstag, _⟩ := runTick_exec_spec w p hwf hrte
  exact ⟨w', cmds, htick, hstag, by simp [writeMapCount, writeMapCount_readMapEvents]⟩

/-- Witness for the amended C1 statement at the concrete worker `c1w`. -/
theorem map_requests_read_only_witness :
    ∃ w' cmds, runTick c1w true = some (w', Event.submit cmds :: readMapEvents c1w.staging_buffers) ∧
      w'.staging_buffers = setReadMapped c1w.staging_buffers ∧
      writeMapCount (Event.submit cmds :: readMapEvents c1w.staging_buffers) = 0 :=
  map_requests_read_only c1w true (by decide) (by decide)

def c2w : Worker where
  state := WorkerState.Created
  pipelines := []
  buffers := [("b", { id := 0, size := 4, data := [] })]
  staging_buffers := [("b", { read := { id := 1, size := 4, data := [] }, read_mapped := false, write := { id := 2, size := 4, data := [] }, write_mapped := false })]
  steps := []
  command_encoder := some []
  write_requested := false
  run_mode := RunMode.OneShot false

/-- C2: a one-shot worker on which `execute()` is called once submits
exactly once over any sequence of ticks: at most one submission overall;
once `ready()` is true, exactly one submission happened, the requested
flag is reset (`OneShot false`), and any further tick sequence submits
nothing. -/
theorem oneshot_single_submission (w : Worker) (ps ps2 : List Bool)
    (hmode : w.run_mode = RunMode.OneShot false) (hstate : w.state = WorkerState.Created)
    (hwf : WFcore w) :
    ∃ wf evs, runTicks (execute w) ps = some (wf, evs) ∧ submitCount evs ≤ 1 ∧
      (ready wf = true → submitCount evs = 1 ∧ wf.run_mode = RunMode.OneShot false ∧
        ∃ wf2 evs2, runTicks wf ps2 = some (wf2, evs2) ∧ submitCount evs2 = 0) := by
  have hex : execute w = { w with run_mode := RunMode.OneShot true } := by
    unfold execute
    rw [hmode]
  have hA : PhaseA (execute w) := by
    rw [hex]
    exact ⟨Or.inl hstate, rfl, hwf⟩
  obtain ⟨wf, evs, hticks, hle, hready⟩ := ticksA (execute w) ps hA
  refine ⟨wf, evs, hticks, hle, ?_⟩
  intro hrw
  obtain ⟨hcnt, hC⟩ := hready hrw
  obtain ⟨wf2, hticks2, _⟩ := ticksC wf ps2 hC
  exact ⟨hcnt, hC.2.1, wf2, [], hticks2, rfl⟩

/-- Witness for C2 at the concrete one-shot worker `c2w`. -/
theorem oneshot_single_submission_witness :
    ∃ wf evs, runTicks (execute c2w) [true] = some (wf, evs) ∧ submitCount evs ≤ 1 ∧
      (ready wf = true → submitCount evs = 1 ∧ wf.run_mode = RunMode.OneShot false ∧
        ∃ wf2 evs2, runTicks wf [true] = some (wf2, evs2) ∧ submitCount evs2 = 0) :=
  oneshot_single_submission c2w [true] [true] rfl rfl (by decide)

def c3w : Worker where
  state := WorkerState.Created
  pipelines := []
  buffers := [("b", { id := 0, size := 4, data := [] })]
  staging_buffers := [("b", { read := { id := 1, size := 4, data := [] }, read_mapped := false, write := { id := 2, size := 4, data := [] }, write_mapped := false })]
  steps := []
  command_encoder := some []
  write_requested := false
  run_mode := RunMode.Continuous

/-- C3: a continuous worker submits on every tick, independently of
`execute()` (which is the identity on it): assuming the poll completes
each cycle, `n` ticks produce exactly `n` submissions, the
ready-to-execute predicate holds at each tick start, and the state is
never `Working` at a tick boundary. -/
theorem continuous_every_tick (w : Worker) (n : Nat)
    (hmode : w.run_mode = RunMode.Continuous) (hst : w.state ≠ WorkerState.Working)
    (hwf : WFcore w) :
    execute w = w ∧ ready_to_execute w = true ∧
    ∃ wf evs, runTicks w (List.replicate n true) = some (wf, evs) ∧
      submitCount evs = n ∧ wf.run_mode = RunMode.Continuous ∧
      wf.state ≠ WorkerState.Working := by
  refine ⟨by unfold execute; rw [hmode], ?_, cont_ticks n w hmode hst hwf⟩
  simp [ready_to_execute, bne_iff_ne, hst, hmode]

/-- Witness for C3: two all-true ticks of the concrete continuous worker
`c3w` give exactly two submissions. -/
theorem continuous_every_tick_witness :
    execute c3w = c3w ∧ ready_to_execute c3w = true ∧
    ∃ wf evs, runTicks c3w (List.replicate 2 true) = some (wf, evs) ∧
      submitCount evs = 2 ∧ wf.run_mode = RunMode.Continuous ∧
      wf.state ≠ WorkerState.Working :=
  continuous_every_tick c3w 2 rfl (by decide) (by decide)

def c4w : Worker where
  state := WorkerState.Created
  pipelines := []
  buffers := []
  staging_buffers := []
  steps := [Step.Swap "x" "y"]
  command_encoder := some []
  write_requested := false
  run_mode := RunMode.Continuous

def c4res : Worker where
  state := WorkerState.FinishedWorking
  pipelines := []
  buffers := []
  staging_buffers := []
  steps := [Step.Swap "x" "y"]
  command_encoder := some []
  write_requested := false
  run_mode := RunMode.Continuous

def c4evs : List Event := [Event.submit []]

/-- C4: a step that fails with a recoverable error is silently discarded —
the worker is exactly unchanged at that point and the loop proceeds with
the next index in declaration order — and a full tick never modifies the
step list, so the unchanged graph is re-attempted from scratch on the
next cycle. -/
theorem step_errors_discarded (w : Worker) (i k : Nat) (w1 : Worker) (e : Error)
    (p : Bool) (w' : Worker) (evs : List Event) :
    (stepEval w i = some (w1, Except.error e) →
      w1 = w ∧ runStepsGo w i (k + 1) = runStepsGo w (i + 1) k) ∧
    (runTick w p = some (w', evs) → w'.steps = w.steps) := by
  constructor
  · intro h
    have hw1 := stepEval_error_unchanged w i w1 e h
    refine ⟨hw1, ?_⟩
    simp only [runStepsGo, h]
    rw [hw1]
  · exact runTick_steps w p w' evs

/-- Witness for C4: the failing `Swap "x" "y"` step of `c4w` (no buffers
registered) is skipped without effect, and a tick keeps the step list. -/
theorem step_errors_discarded_witness :
    (c4w = c4w ∧ runStepsGo c4w 0 (0 + 1) = runStepsGo c4w (0 + 1) 0) ∧
    c4res.steps = c4w.steps :=
  ⟨(step_errors_discarded c4w 0 0 c4w (Error.BufferNotFound "x") true c4res c4evs).1 (by decide),
   (step_errors_discarded c4w 0 0 c4w (Error.BufferNotFound "x") true c4res c4evs).2 (by decide)⟩

def c5w : Worker where
  state := WorkerState.Available
  pipelines := []
  buffers := [("a", { id := 0, size := 4, data := [] })]
  staging_buffers := [("a", { read := { id := 1, size := 4, data := [] }, read_mapped := false, write := { id := 2, size := 4, data := [] }, write_mapped := false })]
  steps := []
  command_encoder := some []
  write_requested := false
  run_mode := RunMode.Continuous

def c5wr : Worker := { c5w with write_requested := true }

/-- C5: after any successful `write`, the pending-write flag is set
globally; the next cycle entering the execute branch records a copy of
EVERY registered write-staging buffer (witnessed here for an arbitrary
member `pr` of the staging registry, not only the written name) into its
device buffer inside the submitted command list, and ends with the
pending-write flag cleared. -/
theorem global_write_flag (w : Worker) (t : String) (bytes : List Nat) (p : Bool)
    (w1 : Worker) (evs1 : List Event)
    (hw : write w t bytes = (w1, evs1, Except.ok ()))
    (hwf : WFcore w1) (hrte : ready_to_execute w1 = true)
    (pr : String × StaggingBuffers) (hpr : pr ∈ w1.staging_buffers) :
    w1.write_requested = true ∧
    ∃ w2 cmds restEvs, runTick w1 p = some (w2, Event.submit cmds :: restEvs) ∧
      w2.write_requested = false ∧
      ∃ buf, w1.buffers.lookup pr.1 = some buf ∧
        EncCmd.copy pr.2.write.id buf.id buf.size ∈ cmds := by
  have hw1 : w1.write_requested = true := by
    unfold write at hw
    cases hsb : w.staging_buffers.lookup t with
    | none =>
      rw [hsb] at hw
      simp at hw
    | some sb =>
      rw [hsb] at hw
      simp only at hw
      injection hw with ha hb
      rw [← ha]
  obtain ⟨w2, cmds, htick, hstag, hsteps, hkeys, hpip, hwr2, hmode', hstate', henc', hmem⟩ :=
    runTick_exec_spec w1 p hwf hrte
  obtain ⟨buf, hbuf, hmemc⟩ := hmem hw1 pr hpr
  exact ⟨hw1, w2, cmds, readMapEvents w1.staging_buffers, htick, hwr2, buf, hbuf, hmemc⟩

/-- Witness for C5 at the concrete worker `c5w` written under name `"a"`. -/
theorem global_write_flag_witness :
    c5wr.write_requested = true ∧
    ∃ w2 cmds restEvs, runTick c5wr true = some (w2, Event.submit cmds :: restEvs) ∧
      w2.write_requested = false ∧
      ∃ buf, c5wr.buffers.lookup "a" = some buf ∧
        EncCmd.copy 2 buf.id buf.size ∈ cmds :=
  global_write_flag c5w "a" [7] true c5wr [Event.queueWriteBuffer 2 0 [7]]
    (by decide) (by decide) (by decide)
    ("a", { read := { id := 1, size := 4, data := [] }, read_mapped := false, write := { id := 2, size := 4, data := [] }, write_mapped := false })
    (by decide)

def c6w : Worker where
  state := WorkerState.Created
  pipelines := []
  buffers := [("x", { id := 0, size := 4, data := [] })]
  staging_buffers := []
  steps := [Step.Swap "x" "y"]
  command_encoder := some []
  write_requested := false
  run_mode := RunMode.Continuous

/-- C6: a `Swap` step one of whose names is unregistered returns
`BufferNotFound` (for the first missing name, in check order) and returns
the worker exactly unchanged — in particular no buffer identity moves, so
no partial or one-sided swap occurs. -/
theorem swap_missing_name (w : Worker) (i : Nat) (a b : String)
    (hstep : w.steps[i]? = some (Step.Swap a b))
    (hmiss : w.buffers.lookup a = none ∨ w.buffers.lookup b = none) :
    swap w i = some (w, Except.error (Error.BufferNotFound
      (if (w.buffers.lookup a).isNone then a else b))) := by
  unfold swap
  simp only [hstep]
  rcases hmiss with hm | hm
  · rw [if_pos (by simp [hm]), if_pos (by simp [hm])]
  · by_cases ha : (w.buffers.lookup a).isNone
    · rw [if_pos ha, if_pos ha]
    · rw [if_neg ha, if_pos (by simp [hm]), if_neg ha]

/-- Witness for C6: swapping `"x"` with the unregistered `"y"` fails with
`BufferNotFound` and leaves `c6w` untouched. -/
theorem swap_missing_name_witness :
    swap c6w 0 = some (c6w, Except.error (Error.BufferNotFound
      (if (c6w.buffers.lookup "x").isNone then "x" else "y"))) :=
  swap_missing_name c6w 0 "x" "y" (by decide) (Or.inr (by decide))

def c7w : Worker where
  state := WorkerState.Available
  pipelines := []
  buffers := [("a", { id := 0, size := 4, data := [] })]
  staging_buffers := [("a", { read := { id := 1, size := 4, data := [] }, read_mapped := false, write := { id := 2, size := 4, data := [] }, write_mapped := false })]
  steps := []
  command_encoder := some []
  write_requested := false
  run_mode := RunMode.Continuous

/-- C7: `write` on an unregistered name returns `StagingBufferNotFound`
with the worker exactly unchanged (in particular the pending-write flag);
a successful `write` enqueues the serialized bytes to the write-staging
buffer on the device queue and sets the pending-write flag. -/
theorem write_behavior (w : Worker) (t : String) (bytes : List Nat) (sb : StaggingBuffers) :
    (w.staging_buffers.lookup t = none →
      write w t bytes = (w, [], Except.error (Error.StagingBufferNotFound t))) ∧
    (w.staging_buffers.lookup t = some sb →
      write w t bytes = ({ w with write_requested := true },
        [Event.queueWriteBuffer sb.write.id 0 bytes], Except.ok ())) := by
  constructor
  · intro h
    unfold write
    rw [h]
  · intro h
    unfold write
    rw [h]

/-- Witness for C7: a failing and a successful `write` on `c7w`. -/
theorem write_behavior_witness :
    write c7w "z" [9] = (c7w, [], Except.error (Error.StagingBufferNotFound "z")) ∧
    write c7w "a" [9] = ({ c7w with write_requested := true },
      [Event.queueWriteBuffer 2 0 [9]], Except.ok ()) :=
  ⟨(write_behavior c7w "z" [9] { read := { id := 1, size := 4, data := [] }, read_mapped := false, write := { id := 2, size := 4, data := [] }, write_mapped := false }).1 (by decide),
   (write_behavior c7w "a" [9] { read := { id := 1, size := 4, data := [] }, read_mapped := false, write := { id := 2, size := 4, data := [] }, write_mapped := false }).2 (by decide)⟩

def c8w : Worker where
  state := WorkerState.Created
  pipelines := []
  buffers := [("b", { id := 0, size := 4, data := [] })]
  staging_buffers := [("b", { read := { id := 1, size := 4, data := [] }, read_mapped := false, write := { id := 2, size := 4, data := [] }, write_mapped := false })]
  steps := []
  command_encoder := some []
  write_requested := false
  run_mode := RunMode.Continuous

def c8res : Worker where
  state := WorkerState.FinishedWorking
  pipelines := []
  buffers := [("b", { id := 0, size := 4, data := [] })]
  staging_buffers := [("b", { read := { id := 1, size := 4, data := [] }, read_mapped := true, write := { id := 2, size := 4, data := [] }, write_mapped := false })]
  steps := []
  command_encoder := some []
  write_requested := false
  run_mode := RunMode.Continuous

def c8evs : List Event := [Event.submit [EncCmd.copy 0 1 4], Event.mapAsync 1 MapMode.read]

/-- C8 counterexample: a `Created` continuous worker's first `run` call
leaves it in `FinishedWorking` (after the poll), not `Available` — the
`Created → Available` transition claimed for the first cycle never
happens, because the `ready()` branch assigns `Available` only from
`FinishedWorking`. -/
theorem created_first_tick_counterexample :
    c8w.state = WorkerState.Created ∧
    runTick c8w true = some (c8res, c8evs) ∧
    c8res.state = WorkerState.FinishedWorking ∧
    c8res.state ≠ WorkerState.Available := by
  refine ⟨rfl, by decide, rfl, by decide⟩

def c8aw : Worker where
  state := WorkerState.Created
  pipelines := []
  buffers := [("b", { id := 0, size := 4, data := [] })]
  staging_buffers := [("b", { read := { id := 1, size := 4, data := [] }, read_mapped := false, write := { id := 2, size := 4, data := [] }, write_mapped := false })]
  steps := []
  command_encoder := some []
  write_requested := false
  run_mode := RunMode.OneShot false

/-- C8 (amended): a worker whose state is `Created` never becomes
`Available` on its first cycle: with run mode `OneShot(false)` it stays
`Created`; otherwise the cycle executes and it ends in `FinishedWorking`
when the poll completes, `Working` when it does not. -/
theorem created_first_tick (w : Worker) (p : Bool)
    (hst : w.state = WorkerState.Created) (hwf : WFcore w) :
    ∃ w' evs, runTick w p = some (w', evs) ∧
      w'.state = (if w.run_mode = RunMode.OneShot false then WorkerState.Created
        else if p = true then WorkerState.FinishedWorking else WorkerState.Working) ∧
      w'.state ≠ WorkerState.Available := by
  by_cases hm : w.run_mode = RunMode.OneShot false
  · have htick := runTick_idle_oneshot w p hm
    rw [if_neg (by simp [ready, hst])] at htick
    refine ⟨w, [], htick, ?_, ?_⟩
    · rw [if_pos hm]
      exact hst
    · rw [hst]
      simp
  · have hrte : ready_to_execute w = true := by
      simp [ready_to_execute, bne_iff_ne, hst, hm]
    obtain ⟨w', cmds, htick, _, _, _, _, _, _, hstate', _, _⟩ := runTick_exec_spec w p hwf hrte
    refine ⟨w', _, htick, ?_, ?_⟩
    · rw [if_neg hm]
      exact hstate'
    · rw [hstate']
      split <;> simp

/-- Witness for the amended C8 at the concrete `OneShot(false)` worker
`c8aw`: its first cycle leaves it `Created`. -/
theorem created_first_tick_witness :
    ∃ w' evs, runTick c8aw true = some (w', evs) ∧
      w'.state = (if c8aw.run_mode = RunMode.OneShot false then WorkerState.Created
        else if (true : Bool) = true then WorkerState.FinishedWorking else WorkerState.Working) ∧
      w'.state ≠ WorkerState.Available :=
  created_first_tick c8aw true rfl (by decide)

def c9w : Worker where
  state := WorkerState.Created
  pipelines := []
  buffers := []
  staging_buffers := []
  steps := [Step.Swap "x" "y"]
  command_encoder := some []
  write_requested := false
  run_mode := RunMode.Continuous

/-- C9: the step loop of `run` matches on the step kind before calling
`dispatch` or `swap`, so a step evaluation can only fail with lookup or
pipeline errors — the `InvalidStep` branches of both functions are
unreachable from a tick. -/
theorem invalid_step_unreachable (w : Worker) (i : Nat) (pr : Worker × Except Error Unit)
    (s : Step) (h : stepEval w i = some pr) :
    pr.2 ≠ Except.error (Error.InvalidStep s) := by
  intro habs
  rcases stepEval_error_shape w i pr (Error.InvalidStep s) h habs with ⟨n, hn⟩ | hn | hn | hn
  all_goals simp at hn

/-- Witness for C9 at the concrete worker `c9w`, whose single `Swap` step
fails with `BufferNotFound`, not `InvalidStep`. -/
theorem invalid_step_unreachable_witness :
    ((c9w, Except.error (Error.BufferNotFound "x")) : Worker × Except Error Unit).2 ≠
      Except.error (Error.InvalidStep (Step.Swap "x" "y")) :=
  invalid_step_unreachable c9w 0 (c9w, Except.error (Error.BufferNotFound "x"))
    (Step.Swap "x" "y") (by decide)

def c10w : Worker where
  state := WorkerState.FinishedWorking
  pipelines := []
  buffers := [("o", { id := 0, size := 8, data := [] })]
  staging_buffers := [("o", { read := { id := 1, size := 8, data := [1, 2, 3, 4, 5, 6, 7, 8] }, read_mapped := true, write := { id := 2, size := 8, data := [] }, write_mapped := false })]
  steps := []
  command_encoder := some []
  write_requested := false
  run_mode := RunMode.Continuous

def c10e : Worker where
  state := WorkerState.FinishedWorking
  pipelines := []
  buffers := [("o", { id := 0, size := 8, data := [] })]
  staging_buffers := [("o", { read := { id := 1, size := 8, data := [] }, read_mapped := true, write := { id := 2, size := 8, data := [] }, write_mapped := false })]
  steps := []
  command_encoder := some []
  write_requested := false
  run_mode := RunMode.Continuous

/-- C10: when `read` returns a non-empty element vector, `read_one`
returns exactly its first element; when the mapped bytes hold zero
elements, `read_one` panics on the `[0]` index (modelled `none`) instead
of returning an `Err`. -/
theorem read_one_head (w : Worker) (es : Nat) (t : String) (x : List Nat)
    (xs : List (List Nat)) :
    (read w es t = some (Except.ok (x :: xs)) → read_one w es t = some (Except.ok x)) ∧
    (read w es t = some (Except.ok ([] : List (List Nat))) → read_one w es t = none) := by
  constructor
  · intro h
    unfold read at h
    unfold read_one
    cases hsb : w.staging_buffers.lookup t with
    | none =>
      rw [hsb] at h
      simp at h
    | some sb =>
      simp only [hsb] at h ⊢
      cases hc : cast_slice es sb.read.data with
      | none =>
        simp [hc] at h
      | some l =>
        simp only [hc] at h ⊢
        injection h with h
        injection h with h
        rw [h]
  · intro h
    unfold read at h
    unfold read_one
    cases hsb : w.staging_buffers.lookup t with
    | none =>
      rw [hsb] at h
      simp at h
    | some sb =>
      simp only [hsb] at h ⊢
      cases hc : cast_slice es sb.read.data with
      | none =>
        simp [hc] at h
      | some l =>
        simp only [hc] at h ⊢
        injection h with h
        injection h with h
        rw [h]

/-- Witness for C10: on `c10w` (eight mapped bytes, element width four)
`read_one` returns the first chunk; on `c10e` (zero mapped bytes)
`read_one` panics. -/
theorem read_one_head_witness :
    read_one c10w 4 "o" = some (Except.ok [1, 2, 3, 4]) ∧ read_one c10e 4 "o" = none :=
  ⟨(read_one_head c10w 4 "o" [1, 2, 3, 4] [[5, 6, 7, 8]]).1 (by decide),
   (read_one_head c10e 4 "o" [] []).2 (by decide)⟩

end EasyCompute
